import Mathlib

/-!
Formal model of the node bootstrap configuration layer in `server/context.go`
(package `server` of the cockroach repository).

The Go code is embedded shallowly:
* `Context` is a structure holding the configuration strings and the derived
  fields; mutation is modelled by explicit state passing (`Init` returns the
  updated `Context` together with the error, if any).
* The Go regexp `([^=]+)=([^,]+)(,|$)` used by `Context.Init` is modelled by a
  direct implementation of RE2 leftmost-first matching for this fixed pattern
  (`matchAt` / `findMatch` / `findAllMatches`), including the semantics of
  `FindAllStringSubmatch`: repeatedly take the leftmost match and resume after
  its end, so matches are non-overlapping but need not be contiguous.
* `strconv.ParseUint(path, 10, 64)` is modelled by `parseUint64`, and the Go
  conversion `int64(size)` by `int64ofUint64` (two's-complement wrap-around).
* `strings.Split` with a one-character separator is modelled by `splitChar`
  and `strings.HasPrefix` by `hasPre`.
* Collaborators that are not part of the source (`gossip.NewResolver`,
  `util.EnsureHost`, `client.NewHTTPClient`) are modelled from the spec, or
  taken as parameters where only their interface matters.
-/

namespace Server

/-- Mirrors `proto.Attributes`: an ordered list of attribute strings. -/
structure Attributes where
  Attrs : List String
deriving DecidableEq

/-- Mirrors the observable construction parameters of a storage engine:
`engine.NewInMem(attrs, size)` or `engine.NewRocksDB(attrs, dir, cacheSize)`.
The engine implementations themselves are external collaborators; only the
construction call and its arguments are modelled. -/
inductive Engine where
  | inMem (attrs : Attributes) (size : Int)
  | rocksDB (attrs : Attributes) (dir : String) (cacheSize : Int)
deriving DecidableEq

/-- Modelled from the spec: a resolver descriptor produced by
`gossip.NewResolver` is a parsed, not-yet-connected `host:port` endpoint. -/
structure Resolver where
  host : String
  port : String
deriving DecidableEq

/-- Modelled from the spec: the handle produced by `client.NewHTTPClient`;
only its identity matters to this layer. -/
structure HTTPClient where
  certsDir : String
deriving DecidableEq

/-- The distinguishable error values produced by `Context.Init`
(`fmt.Errorf` / `util.Errorf` / `errors.New` in the source), carrying the data
that Go interpolates into the message. -/
inductive InitErr where
  | invalidStores (stores : String)
  | badStoreMatch (store : String)
  | engineFail (store : String) (msg : String)
  | resolverFail (msg : String)
  | noGossip
deriving DecidableEq

/-- Mirrors `server.Context`. Durations are nanosecond counts (Go
`time.Duration`), `CacheSize` is the Go `int64` field. The mutex guarding
`httpClient` is modelled by sequential state passing. -/
structure Context where
  Addr : String
  Certs : String
  Stores : String
  Attrs : String
  MaxOffset : Int
  GossipBootstrap : String
  GossipInterval : Int
  Linearizable : Bool
  CacheSize : Int
  Engines : List Engine
  NodeAttributes : Attributes
  GossipBootstrapResolvers : List Resolver
  ScanInterval : Int
  httpClient : Option HTTPClient
deriving DecidableEq

/-- Mirrors `NewContext`: default values, zero values for the rest. -/
def NewContext : Context where
  Addr := ":8080"
  Certs := "certs"
  Stores := ""
  Attrs := ""
  MaxOffset := 250000000
  GossipBootstrap := ""
  GossipInterval := 2000000000
  Linearizable := false
  CacheSize := 1073741824
  Engines := []
  NodeAttributes := ⟨[]⟩
  GossipBootstrapResolvers := []
  ScanInterval := 600000000000
  httpClient := none

/-- Model of Go `strings.Split` with a one-character separator, on the
character list of the string: `splitChar sep l` is the list of (possibly
empty) segments of `l` between occurrences of `sep`. -/
def splitChar (sep : Char) : List Char → List (List Char)
  | [] => [[]]
  | c :: cs =>
    if c = sep then [] :: splitChar sep cs
    else
      match splitChar sep cs with
      | [] => [[c]]
      | t :: ts => (c :: t) :: ts

/-- Model of Go `strings.Split` with a one-character separator. -/
def strSplit (sep : Char) (s : String) : List String :=
  (splitChar sep s.data).map String.mk

/-- Model of Go `strings.HasPrefix s pre`. -/
def hasPre (s pre : String) : Bool :=
  pre.data.isPrefixOf s.data

/-- Mirrors `parseAttributes` (context.go:232): split the string on `:` and
keep the non-empty segments, in order. -/
def parseAttributes (attrsStr : String) : Attributes :=
  ⟨(strSplit ':' attrsStr).filter (fun attr => attr.length != 0)⟩

/-- Model of Go `strconv.ParseUint(s, 10, 64)`: succeeds exactly on non-empty
all-digit strings whose value fits in 64 unsigned bits. -/
def parseUint64 (s : String) : Option Nat :=
  if s.data = [] then none
  else if s.data.all (fun c => c.isDigit) then
    let n := s.data.foldl (fun acc c => acc * 10 + (c.toNat - '0'.toNat)) 0
    if n < 2 ^ 64 then some n else none
  else none

/-- Model of the Go conversion `int64(size)` applied to a `uint64` value:
two's-complement reinterpretation. -/
def int64ofUint64 (n : Nat) : Int :=
  if n < 2 ^ 63 then (n : Int) else (n : Int) - 2 ^ 64

/-- Mirrors `Context.initEngine` (context.go:178-189). Only `ctx.CacheSize`
is read from the context, so it is the explicit first argument. -/
def initEngine (cacheSize : Int) (attrsStr path : String) : Except String Engine :=
  let attrs := parseAttributes attrsStr
  match parseUint64 path with
  | some size =>
    if size = 0 then .error "unable to initialize an in-memory store with capacity 0"
    else .ok (.inMem attrs (int64ofUint64 size))
  | none => .ok (.rocksDB attrs path cacheSize)

/-- One attempt to match the Go regexp `([^=]+)=([^,]+)(,|$)` at the start of
`l`, with RE2 leftmost-first semantics. Since the character classes exclude
the following literal, the greedy first try of each repetition is the only
candidate, so the match at a fixed position is deterministic: a maximal
non-empty run of non-`=` characters, `=`, a maximal non-empty run of non-`,`
characters, then `,` if present (else the match must have reached the end of
the input, matching `$`). Returns the Go submatch slice
`[full, attrs, location, separator]` and the input remaining after the match. -/
def matchAt (l : List Char) : Option (List String × List Char) :=
  let a := l.takeWhile (fun c => c != '=')
  match l.dropWhile (fun c => c != '=') with
  | '=' :: r2 =>
    if a.isEmpty then none
    else
      let b := r2.takeWhile (fun c => c != ',')
      if b.isEmpty then none
      else
        match r2.dropWhile (fun c => c != ',') with
        | ',' :: r4 => some ([⟨a ++ '=' :: (b ++ [','])⟩, ⟨a⟩, ⟨b⟩, ","], r4)
        | r3 => some ([⟨a ++ '=' :: b⟩, ⟨a⟩, ⟨b⟩, ""], r3)
  | _ => none

/-- Leftmost match of the store-spec pattern: try each start position from the
left, as the RE2 search does. -/
def findMatch : List Char → Option (List String × List Char)
  | [] => none
  | c :: cs =>
    match matchAt (c :: cs) with
    | some mr => some mr
    | none => findMatch cs

/-- Fuel-indexed worker for `FindAllStringSubmatch`: collect successive
leftmost matches, resuming after the end of each. The fuel only serves
termination; `l.length + 1` is always enough because every match consumes at
least one character. -/
def findAllAux : Nat → List Char → List (List String)
  | 0, _ => []
  | fuel + 1, l =>
    match findMatch l with
    | none => []
    | some (m, rest) => m :: findAllAux fuel rest

/-- Model of Go `storesRE.FindAllStringSubmatch(s, -1)` (context.go:139) on a
character list: all successive non-overlapping leftmost matches. -/
def findAllMatches (l : List Char) : List (List String) :=
  findAllAux (l.length + 1) l

/-- Model of Go `storesRE.FindAllStringSubmatch(s, -1)` (context.go:139). -/
def findAllStringSubmatch (s : String) : List (List String) :=
  findAllMatches s.data

/-- Mirrors the store loop of `Context.Init` (context.go:145-157): for each
match, check it has exactly four submatches, build an engine from submatches
1 and 2, and append it; abort on the first failure, keeping the engines built
so far (Go appends them to `ctx.Engines` before failing). -/
def engineLoop (cacheSize : Int) : List (List String) → List Engine × Option InitErr
  | [] => ([], none)
  | store :: rest =>
    match store with
    | [s0, s1, s2, _s3] =>
      match initEngine cacheSize s1 s2 with
      | .error e => ([], some (.engineFail s0 e))
      | .ok eng =>
        match engineLoop cacheSize rest with
        | (es, r) => (eng :: es, r)
    | _ => ([], some (.badStoreMatch (store.headD "")))

/-- Modelled from the spec: `util.EnsureHost` returns the address with a host
component ensured, defaulting to the local/loopback host when the bind
address configures only a port. -/
def EnsureHost (addr : String) : String :=
  if hasPre addr ":" then "127.0.0.1" ++ addr else addr

/-- Modelled from the spec: `gossip.NewResolver` resolves a network address
into a resolver descriptor (a `host:port` endpoint); a malformed address
fails with an error identifying the token. -/
def NewResolver (address : String) : Except String Resolver :=
  match strSplit ':' address with
  | [h, p] =>
    if p.length = 0 then .error ("malformed gossip address " ++ address)
    else .ok ⟨h, p⟩
  | _ => .error ("malformed gossip address " ++ address)

/-- Mirrors the `self://` substitution of `parseGossipBootstrapResolvers`
(context.go:204-206): a token with the literal `self://` as a head part is
replaced in its entirety by `util.EnsureHost(ctx.Addr)`. -/
def substSelf (ctxAddr address : String) : String :=
  if hasPre address "self://" then EnsureHost ctxAddr else address

/-- Mirrors the token loop of `Context.parseGossipBootstrapResolvers`
(context.go:193-215), parameterised by the resolver constructor: skip empty
tokens, substitute `self://`, resolve each token, and on the first failure
return `nil` and the error (discarding every resolver built so far). -/
def resolveLoop (newRes : String → Except String Resolver) (selfAddr : String) :
    List String → List Resolver × Option String
  | [] => ([], none)
  | address :: rest =>
    if address.length = 0 then resolveLoop newRes selfAddr rest
    else
      match newRes (substSelf selfAddr address) with
      | .error e => ([], some e)
      | .ok r =>
        match resolveLoop newRes selfAddr rest with
        | (_, some e) => ([], some e)
        | (rs, none) => (r :: rs, none)

/-- Mirrors `Context.parseGossipBootstrapResolvers` (context.go:193-215):
split the bootstrap string on `,` and resolve every non-empty token. -/
def parseGossipBootstrapResolvers (ctx : Context) : List Resolver × Option String :=
  resolveLoop NewResolver ctx.Addr (strSplit ',' ctx.GossipBootstrap)

/-- Mirrors `Context.Init` (context.go:135-172) as a state transformer on
`Context`: regexp-match the store specifications (error when there is no
match), build the engines, parse the node attributes, parse the gossip
bootstrap resolvers, and fail when the resolver list is empty. The returned
context reflects exactly the fields the Go method has assigned on each path. -/
def Init (ctx : Context) : Context × Option InitErr :=
  if (findAllStringSubmatch ctx.Stores).isEmpty then
    (ctx, some (.invalidStores ctx.Stores))
  else
    match engineLoop ctx.CacheSize (findAllStringSubmatch ctx.Stores) with
    | (es, some e) => ({ ctx with Engines := es }, some e)
    | (es, none) =>
      let ctx2 : Context := { ctx with Engines := es, NodeAttributes := parseAttributes ctx.Attrs }
      match parseGossipBootstrapResolvers ctx2 with
      | (_, some e) => (ctx2, some (.resolverFail e))
      | (resolvers, none) =>
        if resolvers.isEmpty then (ctx2, some .noGossip)
        else ({ ctx2 with GossipBootstrapResolvers := resolvers }, none)

/-- Mirrors `Context.GetHTTPClient` (context.go:219-227), parameterised by the
constructor `client.NewHTTPClient` (an external collaborator): return the
cached client if present, otherwise construct from `ctx.Certs`; on success
cache the client, on failure cache nothing and return the error. The mutex is
modelled by sequential state passing. -/
def GetHTTPClient (newHTTPClient : String → Except String HTTPClient) (ctx : Context) :
    (Option HTTPClient × Option String) × Context :=
  match ctx.httpClient with
  | some c => ((some c, none), ctx)
  | none =>
    match newHTTPClient ctx.Certs with
    | .ok c => ((some c, none), { ctx with httpClient := some c })
    | .error e => ((none, some e), { ctx with httpClient := none })

/-! ### Helper lemmas about the store-spec matcher -/

lemma strMk_append (x y : List Char) : String.mk x ++ String.mk y = String.mk (x ++ y) := rfl

lemma strMk_ne_empty {a : List Char} (h : a ≠ []) : String.mk a ≠ "" := by
  intro hc
  rw [show ("" : String) = String.mk [] from rfl] at hc
  exact h (by injection hc)

lemma length_dropWhile_le (p : Char → Bool) (l : List Char) :
    (l.dropWhile p).length ≤ l.length := by
  conv_rhs => rw [← List.takeWhile_append_dropWhile p l]
  rw [List.length_append]
  omega

/-- Every match of the store-spec pattern consumes at least one character. -/
lemma matchAt_length {l : List Char} {m : List String} {r : List Char}
    (h : matchAt l = some (m, r)) : r.length < l.length := by
  have hsplit : l.takeWhile (fun c => c != '=') ++ l.dropWhile (fun c => c != '=') = l :=
    List.takeWhile_append_dropWhile _ _
  have h1 := congrArg List.length hsplit
  rw [List.length_append] at h1
  simp only [matchAt] at h
  split at h
  next r2 heq =>
    rw [heq] at h1
    simp only [List.length_cons] at h1
    have hsplit2 : r2.takeWhile (fun c => c != ',') ++ r2.dropWhile (fun c => c != ',') = r2 :=
      List.takeWhile_append_dropWhile _ _
    have h2 := congrArg List.length hsplit2
    rw [List.length_append] at h2
    split at h
    next => exact absurd h (by simp)
    next =>
      split at h
      next => exact absurd h (by simp)
      next hb =>
        have hbpos : 0 < (r2.takeWhile (fun c => c != ',')).length :=
          List.length_pos.mpr (by simpa [List.isEmpty_iff] using hb)
        split at h
        next r4 heq2 =>
          rw [heq2] at h2
          simp only [List.length_cons] at h2
          cases h
          omega
        next heq2 =>
          cases h
          omega
  next heq hne =>
    exact absurd h (by simp)

/-- Shape of the Go submatch slice produced by one match of the store-spec
pattern: exactly four entries `[full, attrs, location, separator]`, with the
attribute part non-empty and free of `=`, the location part non-empty and
free of `,`, and the separator `,` or empty. -/
lemma matchAt_shape {l : List Char} {m : List String} {r : List Char}
    (h : matchAt l = some (m, r)) :
    ∃ attrsS locS t, m = [attrsS ++ "=" ++ locS ++ t, attrsS, locS, t] ∧
      attrsS ≠ "" ∧ locS ≠ "" ∧ (∀ c ∈ attrsS.data, c ≠ '=') ∧
      (∀ c ∈ locS.data, c ≠ ',') ∧ (t = "," ∨ t = "") := by
  simp only [matchAt] at h
  split at h
  next r2 heq =>
    split at h
    next => exact absurd h (by simp)
    next ha =>
      have hane : l.takeWhile (fun c => c != '=') ≠ [] := by
        simpa [List.isEmpty_iff] using ha
      have hamem : ∀ c ∈ (l.takeWhile (fun c => c != '=')), c ≠ '=' := by
        intro c hc
        have := List.mem_takeWhile_imp hc
        simpa using this
      split at h
      next => exact absurd h (by simp)
      next hb =>
        have hbne : r2.takeWhile (fun c => c != ',') ≠ [] := by
          simpa [List.isEmpty_iff] using hb
        have hbmem : ∀ c ∈ (r2.takeWhile (fun c => c != ',')), c ≠ ',' := by
          intro c hc
          have := List.mem_takeWhile_imp hc
          simpa using this
        split at h
        next r4 heq2 =>
          cases h
          refine ⟨⟨l.takeWhile (fun c => c != '=')⟩, ⟨r2.takeWhile (fun c => c != ',')⟩, ",",
            ?_, strMk_ne_empty hane, strMk_ne_empty hbne, hamem, hbmem, Or.inl rfl⟩
          rw [show ("=" : String) = String.mk ['='] from rfl,
            show ("," : String) = String.mk [','] from rfl, strMk_append, strMk_append,
            strMk_append]
          simp
        next heq2 =>
          cases h
          refine ⟨⟨l.takeWhile (fun c => c != '=')⟩, ⟨r2.takeWhile (fun c => c != ',')⟩, "",
            ?_, strMk_ne_empty hane, strMk_ne_empty hbne, hamem, hbmem, Or.inr rfl⟩
          rw [show ("=" : String) = String.mk ['='] from rfl,
            show ("" : String) = String.mk [] from rfl, strMk_append, strMk_append,
            strMk_append]
          simp
  next heq hne =>
    exact absurd h (by simp)

/-- A successful leftmost search consumes at least one character. -/
lemma findMatch_length : ∀ {l : List Char} {m : List String} {r : List Char},
    findMatch l = some (m, r) → r.length < l.length := by
  intro l
  induction l with
  | nil => intro m r h; simp [findMatch] at h
  | cons c cs ih =>
    intro m r h
    simp only [findMatch] at h
    split at h
    next mr hm =>
      cases h
      exact matchAt_length hm
    next hm =>
      have := ih h
      simp only [List.length_cons]
      omega

/-- Every match produced by the leftmost search is a match of the pattern at
some position of the input. -/
lemma findMatch_matchAt : ∀ {l : List Char} {m : List String} {r : List Char},
    findMatch l = some (m, r) → ∃ p, matchAt p = some (m, r) := by
  intro l
  induction l with
  | nil => intro m r h; simp [findMatch] at h
  | cons c cs ih =>
    intro m r h
    simp only [findMatch] at h
    split at h
    next mr hm =>
      cases h
      exact ⟨c :: cs, hm⟩
    next hm => exact ih h

/-- The fuel of `findAllAux` is irrelevant as long as it exceeds the input
length. -/
lemma findAllAux_congr : ∀ (f1 : Nat) (l : List Char) (f2 : Nat),
    l.length < f1 → l.length < f2 → findAllAux f1 l = findAllAux f2 l := by
  intro f1
  induction f1 with
  | zero => intro l f2 h1 _; omega
  | succ n ih =>
    intro l f2 h1 h2
    cases f2 with
    | zero => omega
    | succ n2 =>
      simp only [findAllAux]
      cases hfm : findMatch l with
      | none => rfl
      | some mr =>
        obtain ⟨m, rest⟩ := mr
        have hlt := findMatch_length hfm
        exact congrArg (m :: ·) (ih rest n2 (by omega) (by omega))

/-- Unfolding equation of `findAllMatches`: take the leftmost match and
continue after it. -/
lemma findAllMatches_eq (l : List Char) :
    findAllMatches l =
      match findMatch l with
      | none => []
      | some (m, rest) => m :: findAllMatches rest := by
  cases hfm : findMatch l with
  | none =>
    show findAllAux (l.length + 1) l = []
    simp only [findAllAux, hfm]
  | some mr =>
    obtain ⟨m, rest⟩ := mr
    have hlt := findMatch_length hfm
    show findAllAux (l.length + 1) l = m :: findAllMatches rest
    simp only [findAllAux, hfm]
    exact congrArg (m :: ·) (findAllAux_congr l.length rest (rest.length + 1) (by omega) (by omega))

/-- Every submatch slice collected by `FindAllStringSubmatch` comes from a
match of the pattern at some position. -/
lemma findAllMatches_mem : ∀ (n : Nat) (l : List Char), l.length ≤ n →
    ∀ m ∈ findAllMatches l, ∃ p r, matchAt p = some (m, r) := by
  intro n
  induction n with
  | zero =>
    intro l hl m hm
    interval_cases hlen : l.length
    · rw [List.length_eq_zero.mp hlen] at hm
      rw [findAllMatches_eq] at hm
      simp [findMatch] at hm
  | succ n ih =>
    intro l hl m hm
    rw [findAllMatches_eq] at hm
    split at hm
    next => simp at hm
    next m0 rest hfm =>
      rcases List.mem_cons.mp hm with hm0 | hmrest
      · subst hm0
        obtain ⟨p, hp⟩ := findMatch_matchAt hfm
        exact ⟨p, rest, hp⟩
      · have := findMatch_length hfm
        exact ih rest (by omega) m hmrest

/-! ### Helper lemmas about the engine loop -/

lemma list_eq_four {α : Type} {l : List α} (h : l.length = 4) :
    ∃ a b c d, l = [a, b, c, d] := by
  rcases l with _ | ⟨a, _ | ⟨b, _ | ⟨c, _ | ⟨d, _ | ⟨e, tl⟩⟩⟩⟩⟩
  · simp at h
  · simp at h
  · simp at h
  · simp at h
  · exact ⟨a, b, c, d, rfl⟩
  · simp only [List.length_cons, List.length_nil] at h
    omega

/-- A successful engine loop builds one engine per match, in order, the i-th
engine from submatches 1 and 2 of the i-th match. -/
lemma engineLoop_ok (cacheSize : Int) : ∀ (specs : List (List String)) (es : List Engine),
    engineLoop cacheSize specs = (es, none) →
    es.length = specs.length ∧
    ∀ i, i < specs.length → ∃ s0 s1 s2 s3 e,
      specs[i]? = some [s0, s1, s2, s3] ∧ initEngine cacheSize s1 s2 = .ok e ∧
      es[i]? = some e := by
  intro specs
  induction specs with
  | nil =>
    intro es h
    simp only [engineLoop] at h
    cases h
    refine ⟨rfl, ?_⟩
    intro i hi
    simp at hi
  | cons store rest ih =>
    intro es h
    simp only [engineLoop] at h
    split at h
    next s0 s1 s2 s3 =>
      split at h
      next e heng => exact absurd h (by simp)
      next eng heng =>
        have hpair : engineLoop cacheSize rest =
            ((engineLoop cacheSize rest).1, (engineLoop cacheSize rest).2) := rfl
        rw [hpair] at h
        injection h with h1 h2
        subst h1
        have hrn : engineLoop cacheSize rest = ((engineLoop cacheSize rest).1, none) := by
          rw [← h2]
        obtain ⟨ihl, ihp⟩ := ih (engineLoop cacheSize rest).1 hrn
        refine ⟨by simp [ihl], ?_⟩
        intro i hi
        cases i with
        | zero => exact ⟨s0, s1, s2, s3, eng, by simp, heng, by simp⟩
        | succ n =>
          have hn : n < rest.length := by
            simp only [List.length_cons] at hi
            omega
          obtain ⟨t0, t1, t2, t3, e, hspec, hinit, hes⟩ := ihp n hn
          exact ⟨t0, t1, t2, t3, e, by simpa using hspec, hinit, by simpa using hes⟩
    next hne => exact absurd h (by simp)

/-- When every collected match has exactly four submatches, the
`len(store) != 4` branch of the store loop is unreachable. -/
lemma engineLoop_no_bad (cacheSize : Int) : ∀ (specs : List (List String)),
    (∀ m ∈ specs, m.length = 4) →
    ∀ s, (engineLoop cacheSize specs).2 ≠ some (.badStoreMatch s) := by
  intro specs
  induction specs with
  | nil =>
    intro _ s
    simp [engineLoop]
  | cons store rest ih =>
    intro hlen s
    obtain ⟨a, b, c, d, rfl⟩ := list_eq_four (hlen store (by simp))
    simp only [engineLoop]
    cases heng : initEngine cacheSize b c with
    | error e => simp
    | ok eng =>
      have hpair : engineLoop cacheSize rest =
          ((engineLoop cacheSize rest).1, (engineLoop cacheSize rest).2) := rfl
      rw [hpair]
      simpa using ih (fun m hm => hlen m (by simp [hm])) s

/-! ### Helper lemmas about the gossip resolver loop and `Init` -/

/-- When the resolver loop fails, it returns the empty (`nil`) resolver list,
never a partial one. -/
lemma resolveLoop_error_nil (f : String → Except String Resolver) (sa : String) :
    ∀ (toks : List String) (rs : List Resolver) (e : String),
      resolveLoop f sa toks = (rs, some e) → rs = [] := by
  intro toks
  induction toks with
  | nil =>
    intro rs e h
    simp only [resolveLoop] at h
    cases h
  | cons address rest ih =>
    intro rs e h
    simp only [resolveLoop] at h
    split at h
    next => exact ih rs e h
    next =>
      split at h
      next e0 hres =>
        cases h
        rfl
      next r hres =>
        split at h
        next e0 hrec =>
          cases h
          rfl
        next rs0 hrec => cases h

/-- When the resolver loop succeeds, every non-empty token resolved
successfully. -/
lemma resolveLoop_ok_all (f : String → Except String Resolver) (sa : String) :
    ∀ (toks : List String), (resolveLoop f sa toks).2 = none →
      ∀ tok ∈ toks, tok.length ≠ 0 → ∃ r, f (substSelf sa tok) = .ok r := by
  intro toks
  induction toks with
  | nil =>
    intro _ tok htok
    simp at htok
  | cons address rest ih =>
    intro h tok htok hne
    simp only [resolveLoop] at h
    rcases List.mem_cons.mp htok with rfl | hmem
    · split at h
      next hlen => exact absurd hlen hne
      next hlen =>
        split at h
        next e0 hres => simp at h
        next r hres => exact ⟨r, hres⟩
    · split at h
      next hlen => exact ih h tok hmem hne
      next hlen =>
        split at h
        next e0 hres => simp at h
        next r hres =>
          split at h
          next e0 hrec => simp at h
          next rs0 hrec =>
            refine ih ?_ tok hmem hne
            rw [hrec]

/-- `parseGossipBootstrapResolvers` reads only the `Addr` and
`GossipBootstrap` configuration fields. -/
lemma parseGossip_proj (ctx : Context) (es : List Engine) (na : Attributes) :
    parseGossipBootstrapResolvers { ctx with Engines := es, NodeAttributes := na } =
      parseGossipBootstrapResolvers ctx := rfl

/-- Once the store phase of `Init` succeeds, the engines derived from the
matches are recorded on every subsequent path, success or failure. -/
lemma Init_engines (ctx : Context) (es : List Engine)
    (hne : (findAllStringSubmatch ctx.Stores).isEmpty = false)
    (h : engineLoop ctx.CacheSize (findAllStringSubmatch ctx.Stores) = (es, none)) :
    (Init ctx).1.Engines = es := by
  simp only [Init, hne, h]
  split
  next hfalse => exact absurd hfalse (by simp)
  next =>
    split
    next => rfl
    next =>
      split
      next => rfl
      next => rfl

/-- Success-shape of `Init`: it returns no error exactly when every phase
succeeds, and then the returned context is the input context with the three
derived fields overwritten. -/
lemma Init_ok_iff (ctx ctx' : Context) :
    Init ctx = (ctx', none) ↔
      ∃ es resolvers,
        (findAllStringSubmatch ctx.Stores).isEmpty = false ∧
        engineLoop ctx.CacheSize (findAllStringSubmatch ctx.Stores) = (es, none) ∧
        parseGossipBootstrapResolvers ctx = (resolvers, none) ∧
        resolvers.isEmpty = false ∧
        ctx' = { ctx with Engines := es, NodeAttributes := parseAttributes ctx.Attrs, GossipBootstrapResolvers := resolvers } := by
  constructor
  · intro h
    simp only [Init] at h
    split at h
    next => simp at h
    next hne =>
      split at h
      next es e heng => simp at h
      next es heng =>
        split at h
        next rs e hres => simp at h
        next resolvers hres =>
          split at h
          next hre => simp at h
          next hre =>
            have h' := (Prod.mk.injEq _ _ _ _).mp h
            refine ⟨es, resolvers, by simpa using hne, heng, ?_, by simpa using hre, h'.1.symm⟩
            rw [← parseGossip_proj ctx es (parseAttributes ctx.Attrs)]
            exact hres
  · intro h
    obtain ⟨es, resolvers, hne, heng, hres, hre, rfl⟩ := h
    simp only [Init, hne, heng]
    rw [parseGossip_proj ctx es (parseAttributes ctx.Attrs), hres]
    simp only [hre]
    rfl

lemma str_length_ne_zero_iff (s : String) : s.length ≠ 0 ↔ s ≠ "" := by
  cases s with
  | mk d =>
    cases d with
    | nil => simp [String.length]
    | cons c cs =>
      constructor
      · intro _ hc
        exact absurd (congrArg String.data hc) (by simp)
      · intro _
        simp [String.length]

lemma ctx_http_none {ctx : Context} (h : ctx.httpClient = none) :
    ({ ctx with httpClient := none } : Context) = ctx := by
  cases ctx
  simp_all

/-! ### Concrete contexts used by the witnesses and counterexamples -/

/-- A context with two disk-backed store specifications and a valid gossip
bootstrap address. -/
def ctxTwoStores : Context :=
  { NewContext with Stores := "hdd:7200rpm=/mnt/hda1,ssd=/mnt/ssd01", GossipBootstrap := "h:1" }

/-- A context whose store specification has trailing text (`c`) that the
pattern cannot match. -/
def ctxLeftover : Context :=
  { NewContext with Stores := "a=b,c", GossipBootstrap := "h:1" }

/-- A context with a valid in-memory store specification and a valid gossip
bootstrap address. -/
def ctxTwice : Context :=
  { NewContext with Stores := "mem=1073741824", GossipBootstrap := "h:1" }

/-- A context with a cached HTTP client. -/
def ctxCached : Context := { NewContext with httpClient := some ⟨"certs"⟩ }

/-- A context carrying a pre-existing resolver list, whose `Init` fails
(empty store specification). -/
def ctxFail : Context := { NewContext with GossipBootstrapResolvers := [⟨"old", "1"⟩] }

/-! ### Claims -/

/-- C1: for every `Stores` string on which the store-spec phase of
`Context.Init` succeeds with N pattern matches (the match list is non-empty
and the engine loop reports no error), `Init` records exactly N engines, in
input order, the i-th built by `initEngine` from the attribute submatch and
location submatch of the i-th match. -/
theorem init_engines_match_by_match (ctx : Context)
    (hne : findAllStringSubmatch ctx.Stores ≠ [])
    (hok : (engineLoop ctx.CacheSize (findAllStringSubmatch ctx.Stores)).2 = none) :
    (Init ctx).1.Engines.length = (findAllStringSubmatch ctx.Stores).length ∧
    ∀ i, i < (findAllStringSubmatch ctx.Stores).length →
      ∃ s0 s1 s2 s3 e, (findAllStringSubmatch ctx.Stores)[i]? = some [s0, s1, s2, s3] ∧
        initEngine ctx.CacheSize s1 s2 = .ok e ∧ (Init ctx).1.Engines[i]? = some e := by
  have hne' : (findAllStringSubmatch ctx.Stores).isEmpty = false := by
    simpa [List.isEmpty_iff] using hne
  have hpair : engineLoop ctx.CacheSize (findAllStringSubmatch ctx.Stores) =
      ((engineLoop ctx.CacheSize (findAllStringSubmatch ctx.Stores)).1, none) := by
    rw [← hok]
  have hEng := Init_engines ctx _ hne' hpair
  obtain ⟨hlen, hpt⟩ := engineLoop_ok ctx.CacheSize _ _ hpair
  rw [hEng]
  exact ⟨hlen, hpt⟩

/-- Witness for C1 at a two-store specification. -/
theorem init_engines_match_by_match_witness :
    (Init ctxTwoStores).1.Engines.length = (findAllStringSubmatch ctxTwoStores.Stores).length :=
  (init_engines_match_by_match ctxTwoStores (by decide) (by decide)).1

/-- C2 counterexample: on `Stores = "a=b,c"` the store-spec phase (and the
whole of `Init`) succeeds, yet the single match `"a=b,"` does not cover the
input: the trailing `"c"` is unmatched leftover text that is silently
accepted, so the phase does not accept exactly the grammar strings. -/
theorem storeSpec_leftover_cex :
    (Init ctxLeftover).2 = none ∧
    findAllStringSubmatch ctxLeftover.Stores = [["a=b,", "a", "b", ","]] ∧
    String.join ((findAllStringSubmatch ctxLeftover.Stores).map (fun m => m.headD ""))
      ≠ ctxLeftover.Stores := by
  refine ⟨by decide, by decide, ?_⟩
  intro hc
  exact absurd (congrArg String.data hc) (by decide)

/-- C2 (amended): the store-spec phase of `Context.Init` fails with a
configuration error when `Stores` is empty or contains no match of the
pattern; when it succeeds, each individual match is a well-formed
`attrs=location` pair (non-empty attributes free of `=`, non-empty location
free of `,`, separator `,` or empty), but the matches need not cover the
entire input: unmatched leftover text is silently ignored. -/
theorem storeSpec_grammar_amended (ctx : Context) :
    (findAllStringSubmatch ctx.Stores = [] →
      Init ctx = (ctx, some (.invalidStores ctx.Stores))) ∧
    (ctx.Stores = "" → Init ctx = (ctx, some (.invalidStores ctx.Stores))) ∧
    (∀ m ∈ findAllStringSubmatch ctx.Stores,
      ∃ attrsS locS t, m = [attrsS ++ "=" ++ locS ++ t, attrsS, locS, t] ∧
        attrsS ≠ "" ∧ locS ≠ "" ∧ (∀ c ∈ attrsS.data, c ≠ '=') ∧
        (∀ c ∈ locS.data, c ≠ ',') ∧ (t = "," ∨ t = "")) := by
  refine ⟨?_, ?_, ?_⟩
  · intro h
    simp [Init, h]
  · intro h
    have h0 : findAllStringSubmatch ctx.Stores = [] := by
      rw [h]
      rfl
    simp [Init, h0]
  · intro m hm
    obtain ⟨p, r, hp⟩ := findAllMatches_mem ctx.Stores.data.length ctx.Stores.data le_rfl m hm
    exact matchAt_shape hp

/-- Witness for the amended C2 at the unmatched store string `"x"`. -/
theorem storeSpec_grammar_amended_witness :
    Init { NewContext with Stores := "x" } =
      ({ NewContext with Stores := "x" }, some (.invalidStores "x")) :=
  (storeSpec_grammar_amended { NewContext with Stores := "x" }).1 (by decide)

/-- C3 counterexample: the location `"9223372036854775808"` (2^63) parses as
an unsigned 64-bit integer, is non-zero, and yet the engine is constructed
with byte capacity `-2^63` (the Go `int64(size)` conversion wraps), not with
the parsed value. -/
theorem initEngine_wrap_cex :
    parseUint64 "9223372036854775808" = some 9223372036854775808 ∧
    initEngine NewContext.CacheSize "mem" "9223372036854775808" =
      .ok (.inMem (parseAttributes "mem") (-9223372036854775808)) ∧
    (-9223372036854775808 : Int) ≠ ((9223372036854775808 : Nat) : Int) := by
  refine ⟨by decide, rfl, by decide⟩

/-- C3 (amended): for every location string that parses as a base-10
unsigned 64-bit integer, `initEngine` fails with a configuration error when
the value is 0, and otherwise returns an in-memory engine whose byte
capacity is the parsed value converted to a signed 64-bit integer: equal to
the parsed value for values in [1, 2^63-1], and the parsed value minus 2^64
(negative) for values in [2^63, 2^64-1]. -/
theorem initEngine_inmem_amended (cacheSize : Int) (attrsStr path : String) (n : Nat)
    (hp : parseUint64 path = some n) :
    (n = 0 → initEngine cacheSize attrsStr path =
      .error "unable to initialize an in-memory store with capacity 0") ∧
    (n ≠ 0 → initEngine cacheSize attrsStr path =
      .ok (.inMem (parseAttributes attrsStr) (int64ofUint64 n))) ∧
    (n < 2 ^ 63 → int64ofUint64 n = (n : Int)) ∧
    (2 ^ 63 ≤ n → int64ofUint64 n = (n : Int) - 2 ^ 64) := by
  refine ⟨?_, ?_, ?_, ?_⟩
  · intro h0
    subst h0
    simp [initEngine, hp]
  · intro hn0
    simp [initEngine, hp, hn0]
  · intro h
    rw [int64ofUint64, if_pos h]
  · intro h
    rw [int64ofUint64, if_neg (by omega)]

/-- Witness for the amended C3 at the in-memory size 2^30. -/
theorem initEngine_inmem_amended_witness :
    initEngine 7 "mem" "1073741824" =
      .ok (.inMem (parseAttributes "mem") (int64ofUint64 1073741824)) :=
  (initEngine_inmem_amended 7 "mem" "1073741824" 1073741824 (by decide)).2.1 (by decide)

/-- C4: gossip bootstrap parsing is all-or-nothing. A failing resolver loop
returns the empty list (never a partial one); if any non-empty token of the
bootstrap string fails to resolve, the parse returns an error; the empty
bootstrap string parses to zero resolvers; and whenever the parse yields
zero resolvers, `Context.Init` fails. -/
theorem gossip_all_or_nothing (ctx : Context) :
    (∀ (f : String → Except String Resolver) (sa : String) (toks : List String)
        (rs : List Resolver) (e : String),
      resolveLoop f sa toks = (rs, some e) → rs = []) ∧
    (∀ tok ∈ strSplit ',' ctx.GossipBootstrap, tok ≠ "" →
      (∃ e, NewResolver (substSelf ctx.Addr tok) = .error e) →
      ∃ e, (parseGossipBootstrapResolvers ctx).2 = some e) ∧
    (ctx.GossipBootstrap = "" → parseGossipBootstrapResolvers ctx = ([], none)) ∧
    ((parseGossipBootstrapResolvers ctx).1 = [] → ∃ e, (Init ctx).2 = some e) := by
  refine ⟨resolveLoop_error_nil, ?_, ?_, ?_⟩
  · intro tok hmem hne herr
    rcases h2 : (parseGossipBootstrapResolvers ctx).2 with _ | e'
    · obtain ⟨r, hr⟩ := resolveLoop_ok_all NewResolver ctx.Addr
        (strSplit ',' ctx.GossipBootstrap) h2 tok hmem
        ((str_length_ne_zero_iff tok).mpr hne)
      obtain ⟨e, he⟩ := herr
      rw [he] at hr
      cases hr
    · exact ⟨e', rfl⟩
  · intro h
    simp only [parseGossipBootstrapResolvers]
    rw [h]
    rfl
  · intro h
    rcases hI : (Init ctx).2 with _ | e
    · have hfix : Init ctx = ((Init ctx).1, none) := by
        rw [← hI]
      obtain ⟨es, resolvers, _, _, hres, hre, _⟩ := (Init_ok_iff ctx (Init ctx).1).mp hfix
      rw [hres] at h
      simp only at h
      rw [h] at hre
      simp at hre
    · exact ⟨e, rfl⟩

/-- Witness for C4: with an empty bootstrap string the parse yields zero
resolvers and `Init` fails. -/
theorem gossip_all_or_nothing_witness :
    ∃ e, (Init { NewContext with Stores := "a=b" }).2 = some e :=
  (gossip_all_or_nothing { NewContext with Stores := "a=b" }).2.2.2 (by decide)

/-- C5: `parseAttributes` returns exactly the non-empty substrings obtained
by splitting on `:`, in input order with duplicates preserved (it is total,
so it never fails); in particular `""`, `":"` and `"::"` yield an empty
attribute list, and `"ssd:7200rpm:ssd"` yields
`["ssd", "7200rpm", "ssd"]`. -/
theorem parseAttributes_split_filter (s : String) :
    (parseAttributes s).Attrs = (strSplit ':' s).filter (fun t => t != "") ∧
    parseAttributes "" = ⟨[]⟩ ∧ parseAttributes ":" = ⟨[]⟩ ∧ parseAttributes "::" = ⟨[]⟩ ∧
    parseAttributes "ssd:7200rpm:ssd" = ⟨["ssd", "7200rpm", "ssd"]⟩ := by
  refine ⟨?_, by decide, by decide, by decide, by decide⟩
  simp only [parseAttributes]
  apply List.filter_congr
  intro t _
  cases t with
  | mk d =>
    cases d with
    | nil => rfl
    | cons c cs => rfl

/-- C6: in the gossip bootstrap parse, a token with the `self://` head is
replaced in its entirety by the node's own bind address with a host
component ensured; in particular the token `"self://"` with bind address
`":26257"` resolves to a descriptor for the local host on port 26257. -/
theorem gossip_self_subst (ctxAddr address : String)
    (h : hasPre address "self://" = true) :
    substSelf ctxAddr address = EnsureHost ctxAddr ∧
    parseGossipBootstrapResolvers
        { NewContext with Addr := ":26257", GossipBootstrap := "self://" } =
      ([⟨"127.0.0.1", "26257"⟩], none) := by
  exact ⟨by simp [substSelf, h], by decide⟩

/-- Witness for C6 at the token `"self://"` and bind address `":26257"`. -/
theorem gossip_self_subst_witness :
    substSelf ":26257" "self://" = EnsureHost ":26257" :=
  (gossip_self_subst ":26257" "self://" (by decide)).1

/-- C7: `GetHTTPClient` memoizes only success. A cached client is returned
as-is, with no construction (the result does not depend on the constructor);
once a call caches a client, every later call returns that same client; when
construction fails and nothing is cached, the error is returned and the
state is unchanged (no error sentinel is cached), so a later call attempts
construction again and can succeed. -/
theorem getHTTPClient_memoizes_success :
    ∀ (f g : String → Except String HTTPClient) (ctx : Context) (c : HTTPClient),
      (ctx.httpClient = some c → GetHTTPClient f ctx = ((some c, none), ctx)) ∧
      (∀ res ctx2, GetHTTPClient f ctx = (res, ctx2) → ctx2.httpClient = some c →
        GetHTTPClient g ctx2 = ((some c, none), ctx2)) ∧
      (∀ e, ctx.httpClient = none → f ctx.Certs = .error e →
        GetHTTPClient f ctx = ((none, some e), ctx)) ∧
      (ctx.httpClient = none → ∀ c2, g ctx.Certs = .ok c2 →
        GetHTTPClient g ctx = ((some c2, none), { ctx with httpClient := some c2 })) := by
  intro f g ctx c
  refine ⟨?_, ?_, ?_, ?_⟩
  · intro h
    simp [GetHTTPClient, h]
  · intro res ctx2 _ hcached
    simp [GetHTTPClient, hcached]
  · intro e h0 herr
    simp [GetHTTPClient, h0, herr, ctx_http_none h0]
  · intro h0 c2 hok
    simp [GetHTTPClient, h0, hok]

/-- Witness for C7: a cached client is returned unchanged even under a
failing constructor. -/
theorem getHTTPClient_memoizes_success_witness :
    GetHTTPClient (fun _ => .error "boom") ctxCached = ((some ⟨"certs"⟩, none), ctxCached) :=
  (getHTTPClient_memoizes_success (fun _ => .error "boom") (fun _ => .error "boom")
    ctxCached ⟨"certs"⟩).1 rfl

/-- C8: `Init` run twice on the same context with a valid, unchanged
configuration is idempotent in its observable derived output: the second run
also succeeds and reproduces the same engines (hence the same number, kinds,
attributes and locations, with no accumulation), the same node attributes,
and the same number of resolvers. -/
theorem init_idempotent (ctx ctx' : Context) (h : Init ctx = (ctx', none)) :
    Init ctx' = (ctx', none) ∧
    (Init ctx').1.Engines = ctx'.Engines ∧
    (Init ctx').1.NodeAttributes = ctx'.NodeAttributes ∧
    (Init ctx').1.GossipBootstrapResolvers.length = ctx'.GossipBootstrapResolvers.length := by
  obtain ⟨es, resolvers, hne, heng, hres, hre, rfl⟩ := (Init_ok_iff ctx ctx').mp h
  have hfix : Init { ctx with Engines := es, NodeAttributes := parseAttributes ctx.Attrs, GossipBootstrapResolvers := resolvers } = ({ ctx with Engines := es, NodeAttributes := parseAttributes ctx.Attrs, GossipBootstrapResolvers := resolvers }, none) :=
    (Init_ok_iff _ _).mpr ⟨es, resolvers, hne, heng, hres, hre, rfl⟩
  exact ⟨hfix, by rw [hfix], by rw [hfix], by rw [hfix]⟩

/-- Witness for C8 at a valid in-memory store configuration. -/
theorem init_idempotent_witness :
    Init (Init ctxTwice).1 = ((Init ctxTwice).1, none) :=
  (init_idempotent ctxTwice (Init ctxTwice).1 (by decide)).1

/-- C9: every match returned by the store-spec pattern consists of exactly
four entries (the full match plus three captures), so the `len(store) != 4`
check in `Context.Init` never triggers and its error branch is
unreachable. -/
theorem store_matches_length_four (s : String) :
    (∀ m ∈ findAllStringSubmatch s, m.length = 4) ∧
    ∀ (cacheSize : Int) (t : String),
      (engineLoop cacheSize (findAllStringSubmatch s)).2 ≠ some (.badStoreMatch t) := by
  have hlen : ∀ m ∈ findAllStringSubmatch s, m.length = 4 := by
    intro m hm
    obtain ⟨p, r, hp⟩ := findAllMatches_mem s.data.length s.data le_rfl m hm
    obtain ⟨a, b, t, hm4, _⟩ := matchAt_shape hp
    rw [hm4]
    rfl
  exact ⟨hlen, fun c t => engineLoop_no_bad c _ hlen t⟩

/-- Witness for C9 at the store string `"a=b"`. -/
theorem store_matches_length_four_witness :
    (["a=b", "a", "b", ""] : List String).length = 4 :=
  (store_matches_length_four "a=b").1 ["a=b", "a", "b", ""] (by decide)

/-- C10: whenever `Context.Init` returns an error, the
`GossipBootstrapResolvers` field is left unchanged from its value before the
call: it is assigned only after resolver parsing succeeds and the
non-emptiness check passes. -/
theorem init_error_keeps_resolvers (ctx ctx' : Context) (e : InitErr)
    (h : Init ctx = (ctx', some e)) :
    ctx'.GossipBootstrapResolvers = ctx.GossipBootstrapResolvers := by
  simp only [Init] at h
  split at h
  next =>
    cases h
    rfl
  next =>
    split at h
    next =>
      cases h
      rfl
    next =>
      split at h
      next =>
        cases h
        rfl
      next =>
        split at h
        next =>
          cases h
          rfl
        next => simp at h

/-- Witness for C10 at a context with an empty store specification and a
pre-existing resolver list. -/
theorem init_error_keeps_resolvers_witness :
    (Init ctxFail).1.GossipBootstrapResolvers = ctxFail.GossipBootstrapResolvers :=
  init_error_keeps_resolvers ctxFail (Init ctxFail).1 (.invalidStores "") (by decide)

end Server
